import Mathlib

/-!
# Verification of the dependency/usage extraction core

A shallow embedding, in Lean 4, of the two extraction pipelines of the
repository:

* `src/c/tools/dependency_tools.py` — the manifest extractor, in particular
  the dependency-spec splitter `split_dependency` and the conda
  environment-file parser `get_conda_dependencies`, together with the
  per-file error isolation of `extract_project_dependencies`;
* `src/c/tools/analyze_python_ast.py` — the source import scanner
  (`ImportUsageVisitor` and `analyze_repo`) and the entry point
  `generate_ast_usage_pdf`.

Pure string processing is translated function by function.  Effectful parts
(directory walks, file decoding, `ast.parse`, CSV/PDF writing) are modelled
by passing their results in explicitly: a scanned file is given as its
source lines together with either a parsed syntax tree or a parse-failure
message, and the statement/expression trees use the closed set of node
kinds the analyzer dispatches on (`Import`, `ImportFrom`, `Call`,
`Attribute`, `Name`, and an opaque "other" node whose children are visited
in field order).

The theorems at the end of the file check the specification's claims about
these functions.
-/

/-! ## Python string primitives -/

/-- The characters matched by Python's `\s` (ASCII), also the characters
removed by `str.strip()`. -/
def isPySpace (c : Char) : Bool :=
  c = ' ' || c = '\t' || c = '\n' || c = '\r' || c = '\x0b' || c = '\x0c'

/-- Python's `str.strip()` on a list of characters: drop whitespace from
both ends. -/
def stripList (l : List Char) : List Char :=
  ((l.dropWhile isPySpace).reverse.dropWhile isPySpace).reverse

/-- `c ∈ l`, as the membership test Python's `in` performs for a
single-character needle. -/
def containsC (l : List Char) (c : Char) : Bool :=
  l.any (fun x => x = c)

/-- `s.split(sep, 1)` for a single-character separator, returning the part
before the first occurrence and the part after it.  (Only used when the
separator is known to occur.) -/
def splitFirstL (c : Char) : List Char → List Char × List Char
  | [] => ([], [])
  | x :: xs =>
    if x = c then ([], xs)
    else ((x :: (splitFirstL c xs).1), (splitFirstL c xs).2)

/-! ## The dependency-spec splitter (`split_dependency`)

The regex `([\w\-\.]+)(?:\[[^\]]+\])?\s*(==|>=|<=|>|<|~=)?\s*([\d\w\.\*]+)?`
is embedded directly: every subpattern after the first group is optional or
starred, so the whole remainder always matches and `re.match` never
backtracks — each greedy piece simply consumes its maximal prefix, and the
alternation for the operator is tried left to right. -/

/-- A character of the regex class `[\w\-\.]` (package-name characters). -/
def isGroup1Char (c : Char) : Bool :=
  c.isAlphanum || c = '_' || c = '-' || c = '.'

/-- A character of the regex class `[\d\w\.\*]` (version characters). -/
def isNumChar (c : Char) : Bool :=
  c.isAlphanum || c = '_' || c = '.' || c = '*'

/-- The non-capturing optional group `(?:\[[^\]]+\])?`: consume a bracketed
extras segment when one starts here, otherwise consume nothing. -/
def skipExtras (l : List Char) : List Char :=
  match l with
  | '[' :: rest =>
    let inside := rest.takeWhile (fun c => c ≠ ']')
    if inside.isEmpty then l
    else
      match rest.drop inside.length with
      | ']' :: after => after
      | _ => l
  | _ => l

/-- The optional operator group `(==|>=|<=|>|<|~=)?`: the alternatives are
tried in the regex's order; when none matches the group is empty. -/
def matchOpD (l : List Char) : List Char × List Char :=
  if l.take 2 = ['=', '='] then (['=', '='], l.drop 2)
  else if l.take 2 = ['>', '='] then (['>', '='], l.drop 2)
  else if l.take 2 = ['<', '='] then (['<', '='], l.drop 2)
  else if l.take 1 = ['>'] then (['>'], l.drop 1)
  else if l.take 1 = ['<'] then (['<'], l.drop 1)
  else if l.take 2 = ['~', '='] then (['~', '='], l.drop 2)
  else ([], l)

/-- `f"{version_operator}{version_number}".strip() or "latest"` from the
source: the version string built from the operator and version groups, with
the falsy empty string replaced by the sentinel. -/
def versionFrom (op num : List Char) : String :=
  if (stripList (op ++ num)).isEmpty then "latest"
  else String.mk (stripList (op ++ num))

/-- The version part of a successful regex match: skip extras and
whitespace, read the optional operator, skip whitespace, read the optional
version number. -/
def regexVersion (r : List Char) : String :=
  match matchOpD ((skipExtras r).dropWhile isPySpace) with
  | (op, r4) => versionFrom op ((r4.dropWhile isPySpace).takeWhile isNumChar)

/-- `re.match` of the dependency regex: fails exactly when the mandatory
first group `([\w\-\.]+)` cannot consume at least one character; otherwise
the first group takes the maximal package-name prefix and the remainder
produces the version. -/
def regexSplit (l : List Char) : Option (String × String) :=
  if (l.takeWhile isGroup1Char).isEmpty then none
  else some (String.mk (l.takeWhile isGroup1Char),
             regexVersion (l.dropWhile isGroup1Char))

/-- The first two lines of `split_dependency`: strip the raw string, then
drop an environment-marker suffix introduced by `;` (stripping again). -/
def stripMarker (s : String) : String :=
  let dep := String.mk (stripList s.data)
  if containsC dep.data ';' then
    String.mk (stripList (splitFirstL ';' dep.data).1)
  else dep

/-- `split_dependency(dep)` from `dependency_tools.py`: after marker
stripping, a string containing `@` is split once on the first `@` with both
sides stripped and the right side prefixed by `"@ "`; otherwise the regex
is tried, and on regex failure the whole stripped string is the package
with version `"latest"`. -/
def split_dependency (s : String) : String × String :=
  let dep := stripMarker s
  if containsC dep.data '@' then
    (String.mk (stripList (splitFirstL '@' dep.data).1),
     "@ " ++ String.mk (stripList (splitFirstL '@' dep.data).2))
  else
    match regexSplit dep.data with
    | some pv => pv
    | none => (dep, "latest")

example : split_dependency "name==1.2.3" = ("name", "==1.2.3") := by decide
example : split_dependency "name" = ("name", "latest") := by decide
example : split_dependency "pkg @ git+https://x" = ("pkg", "@ git+https://x") := by decide
example : split_dependency "flask==2.0.1" = ("flask", "==2.0.1") := by decide
example : split_dependency "requests" = ("requests", "latest") := by decide
example : split_dependency "uvicorn[standard]>=0.15" = ("uvicorn", ">=0.15") := by decide
example : split_dependency "python=3.9" = ("python", "latest") := by decide
example : split_dependency "python==3.9" = ("python", "==3.9") := by decide
example : split_dependency "foo; python_version < \x273.11\x27" = ("foo", "latest") := by decide
example : split_dependency "" = ("", "latest") := by decide

/-! ## The source import scanner (`analyze_python_ast.py`)

The syntax trees use the closed node set the visitor dispatches on.  A
`PyExpr.group` node stands for any other expression kind: `generic_visit`
visits its children in AST field order.  Note that CPython's field order is
visit order, and for some node kinds (e.g. `FunctionDef`, whose fields put
`body` before `decorator_list`) it differs from source-line order. -/

/-- Expression nodes, each carrying its `lineno`. -/
inductive PyExpr where
  /-- `ast.Name` -/
  | name (id : String) (lineno : Nat)
  /-- `ast.Attribute` -/
  | attr (value : PyExpr) (attrName : String) (lineno : Nat)
  /-- `ast.Call`: `func` is visited before the arguments. -/
  | call (func : PyExpr) (args : List PyExpr) (lineno : Nat)
  /-- any other expression; `generic_visit` recurses into the children in
  field order. -/
  | group (children : List PyExpr) (lineno : Nat)

/-- Statement nodes.  Import bindings are `(name, asname?)` pairs. -/
inductive PyStmt where
  /-- `ast.Import` -/
  | imp (names : List (String × Option String)) (lineno : Nat)
  /-- `ast.ImportFrom` -/
  | impFrom (module : String) (names : List (String × Option String)) (lineno : Nat)
  /-- `ast.Expr`: an expression statement. -/
  | exprStmt (e : PyExpr) (lineno : Nat)
  /-- any other (compound) statement; children are visited in AST field
  order, which need not be ascending source-line order (decorators of a
  `FunctionDef` are visited after its body). -/
  | block (body : List PyStmt) (lineno : Nat)

/-- One entry of `visitor.imports`. -/
structure ImportInfo where
  module : String
  aliasName : String
  lineno : Nat
  code : String
deriving DecidableEq, Repr

/-- One entry of `visitor.usage`: `(full_name, line, code_line)`. -/
structure UsageEntry where
  name : String
  lineno : Nat
  code : String
deriving DecidableEq, Repr

/-- `self.source_lines[lineno - 1]`: the quoted source line. -/
def codeAt (lines : List String) (lineno : Nat) : String :=
  lines.getD (lineno - 1) ""

/-- `get_full_attribute_name`: dotted path for `Name`/`Attribute` chains,
`""` for anything else. -/
def fullAttrName : PyExpr → String
  | .name id _ => id
  | .attr v a _ => fullAttrName v ++ "." ++ a
  | _ => ""

/-- The `while isinstance(current, ast.Attribute): current = current.value`
loop of `visit_Attribute`: the root expression of an attribute chain. -/
def attrRootExpr : PyExpr → PyExpr
  | .attr v _ _ => attrRootExpr v
  | e => e

/-- `isinstance(current, ast.Name)`. -/
def isName : PyExpr → Bool
  | .name _ _ => true
  | _ => false

mutual
/-- The usage entries appended while visiting one expression, in visit
order: `visit_Call` records the callee's dotted name when it is non-empty
and then visits children (`func` first); `visit_Attribute` records the
dotted name when the chain's root is a `Name` and then visits the value. -/
def exprUsages (lines : List String) : PyExpr → List UsageEntry
  | .name _ _ => []
  | .attr v a ln =>
    (if isName (attrRootExpr (PyExpr.attr v a ln)) then
       [⟨fullAttrName (PyExpr.attr v a ln), ln, codeAt lines ln⟩]
     else []) ++ exprUsages lines v
  | .call f args ln =>
    (if (fullAttrName f).isEmpty then []
     else [⟨fullAttrName f, ln, codeAt lines ln⟩])
      ++ exprUsages lines f ++ exprListUsages lines args
  | .group cs _ => exprListUsages lines cs

/-- Usage entries of a list of child expressions, left to right. -/
def exprListUsages (lines : List String) : List PyExpr → List UsageEntry
  | [] => []
  | e :: es => exprUsages lines e ++ exprListUsages lines es
end

mutual
/-- The usage entries appended while visiting one statement. -/
def stmtUsages (lines : List String) : PyStmt → List UsageEntry
  | .imp _ _ => []
  | .impFrom _ _ _ => []
  | .exprStmt e _ => exprUsages lines e
  | .block body _ => stmtListUsages lines body

/-- Usage entries of a statement list, in order. -/
def stmtListUsages (lines : List String) : List PyStmt → List UsageEntry
  | [] => []
  | s :: ss => stmtUsages lines s ++ stmtListUsages lines ss
end

mutual
/-- The import entries appended while visiting one statement:
`visit_Import` records `(name, asname or name)` per binding, and
`visit_ImportFrom` records `("module.name", asname or name)`. -/
def stmtImports (lines : List String) : PyStmt → List ImportInfo
  | .imp names ln =>
    names.map (fun b => ⟨b.1, b.2.getD b.1, ln, codeAt lines ln⟩)
  | .impFrom m names ln =>
    names.map (fun b => ⟨m ++ "." ++ b.1, b.2.getD b.1, ln, codeAt lines ln⟩)
  | .exprStmt _ _ => []
  | .block body _ => stmtListImports lines body

/-- Import entries of a statement list, in order. -/
def stmtListImports (lines : List String) : List PyStmt → List ImportInfo
  | [] => []
  | s :: ss => stmtImports lines s ++ stmtListImports lines ss
end

mutual
/-- The `lineno` of every node of an expression, in visit (pre-)order. -/
def exprLines : PyExpr → List Nat
  | .name _ ln => [ln]
  | .attr v _ ln => ln :: exprLines v
  | .call f args ln => ln :: (exprLines f ++ exprListLines args)
  | .group cs ln => ln :: exprListLines cs

/-- Linenos of a list of expressions, in visit order. -/
def exprListLines : List PyExpr → List Nat
  | [] => []
  | e :: es => exprLines e ++ exprListLines es
end

mutual
/-- The `lineno` of every node of a statement, in visit (pre-)order. -/
def stmtLines : PyStmt → List Nat
  | .imp _ ln => [ln]
  | .impFrom _ _ ln => [ln]
  | .exprStmt e ln => ln :: exprLines e
  | .block body ln => ln :: stmtListLines body

/-- Linenos of a statement list, in visit order. -/
def stmtListLines : List PyStmt → List Nat
  | [] => []
  | s :: ss => stmtLines s ++ stmtListLines ss
end

/-! ### Per-file record assembly (`analyze_repo`, inner loop) -/

/-- The `type` field of an output record. -/
inductive RKind where
  | imp
  | usage
  | err
deriving DecidableEq, Repr

/-- One element of the `results` list built by `analyze_repo`.  `lineno` is
an `Int` because error records use the sentinel `-1`. -/
structure Record where
  file : String
  rtype : RKind
  symbol : String
  aliasName : String
  lineno : Int
  code : String
deriving DecidableEq, Repr

/-- `usage.split('.')[0]`: the first dotted component. -/
def rootName (s : String) : String :=
  String.mk (s.data.takeWhile (fun c => c ≠ '.'))

/-- One step of the dict comprehension
`{imp['alias']: imp for imp in visitor.imports}`: assigning to an existing
key replaces its value in place, a new key is appended. -/
def upsert (m : List (String × ImportInfo)) (i : ImportInfo) :
    List (String × ImportInfo) :=
  if m.any (fun p => p.1 == i.aliasName) then
    m.map (fun p => if p.1 == i.aliasName then (i.aliasName, i) else p)
  else m ++ [(i.aliasName, i)]

/-- `import_map`, as the insertion-ordered association list a Python dict
is. -/
def buildImportMap (imps : List ImportInfo) : List (String × ImportInfo) :=
  imps.foldl upsert []

/-- The `"type": "import"` record emitted for one `import_map` item. -/
def importRecord (fp : String) (a : String) (i : ImportInfo) : Record :=
  ⟨fp, .imp, i.module, a, (i.lineno : Int), i.code⟩

/-- The `"type": "usage"` record emitted for one `usage_map` entry. -/
def usageRecord (fp a : String) (u : UsageEntry) : Record :=
  ⟨fp, .usage, u.name, a, (u.lineno : Int), u.code⟩

/-- The records of one `import_map` item: its import record followed by
the usage entries whose root component is this alias (that is exactly
`usage_map[alias]`, which collects them in visit order). -/
def fileGroup (fp : String) (usages : List UsageEntry)
    (p : String × ImportInfo) : List Record :=
  importRecord fp p.1 p.2 ::
    (usages.filter (fun u => rootName u.name == p.1)).map (usageRecord fp p.1)

/-- Append the lists `g x` for `x` along the list (the shape of the nested
result-building loops). -/
def concatMapG (g : α → List β) : List α → List β
  | [] => []
  | x :: xs => g x ++ concatMapG g xs

/-- The records `analyze_repo` emits for one successfully parsed file:
for each `import_map` item in insertion order, its import record followed
by its usage records. -/
def analyze_file (fp : String) (lines : List String) (m : List PyStmt) :
    List Record :=
  concatMapG (fileGroup fp (stmtListUsages lines m))
    (buildImportMap (stmtListImports lines m))

/-- What became of decoding and `ast.parse` for one file: a tree (with the
decoded source lines), or the message of the caught exception. -/
inductive ParseResult where
  | ok (lines : List String) (tree : List PyStmt)
  | failed (msg : String)

/-- A discovered `.py` file, as `analyze_repo`'s walk finds it. -/
structure PyFile where
  path : String
  parsed : ParseResult

/-- The record emitted for a file whose processing raised: the message in
`symbol`, empty alias/code, sentinel line `-1`. -/
def errorRecord (fp msg : String) : Record :=
  ⟨fp, .err, msg, "", -1, ""⟩

/-- `analyze_repo`, over the list of discovered files (the `os.walk` and
file decoding are modelled by taking each file's `ParseResult` as input). -/
def analyze_repo : List PyFile → List Record
  | [] => []
  | f :: fs =>
    (match f.parsed with
     | .ok lines t => analyze_file f.path lines t
     | .failed msg => [errorRecord f.path msg]) ++ analyze_repo fs

/-! ### Concrete sample files -/

/-- Source lines of the spec's pandas example file. -/
def pandasLines : List String :=
  ["import pandas as pd", "pd.read_csv()", "pd.DataFrame"]

/-- Syntax tree of the pandas example: `import pandas as pd`, a call
`pd.read_csv()`, then the bare attribute access `pd.DataFrame`. -/
def pandasMod : List PyStmt :=
  [.imp [("pandas", some "pd")] 1,
   .exprStmt (.call (.attr (.name "pd" 2) "read_csv" 2) [] 2) 2,
   .exprStmt (.attr (.name "pd" 3) "DataFrame" 3) 3]

example :
    analyze_file "sample.py" pandasLines pandasMod =
      [⟨"sample.py", .imp, "pandas", "pd", 1, "import pandas as pd"⟩,
       ⟨"sample.py", .usage, "pd.read_csv", "pd", 2, "pd.read_csv()"⟩,
       ⟨"sample.py", .usage, "pd.read_csv", "pd", 2, "pd.read_csv()"⟩,
       ⟨"sample.py", .usage, "pd.DataFrame", "pd", 3, "pd.DataFrame"⟩] := by
  decide

/-! ## The manifest extractor (`dependency_tools.py`) -/

/-- A `(sourcePath, package, version)` triple. -/
abbrev DepRecord := String × String × String

/-- Python's `str.startswith`, on the underlying character lists. -/
def startsWithPy (s pre : String) : Bool :=
  pre.data.isPrefixOf s.data

/-- One entry of a conda `dependencies:` list, as `get_conda_dependencies`
discriminates them: a string, a dict with a `"pip"` key holding a list of
specifier strings, or anything else (skipped). -/
inductive CondaEntry where
  | str (s : String)
  | pip (deps : List String)
  | other
deriving DecidableEq, Repr

/-- `get_conda_dependencies`, given the parsed `dependencies` list of the
environment file (YAML loading is modelled by taking the parsed list as
input).  The source makes two passes over the list: the first appends a
synthetic `"python"` record for every string entry starting with
`"python"`; the second appends one split record per string entry (the
python ones again) and one per element of each `pip:` sub-list. -/
def get_conda_dependencies (env_file : String) (deps : List CondaEntry) :
    List DepRecord :=
  let firstPass := deps.foldl (fun acc item =>
    match item with
    | .str s =>
      if startsWithPy s "python" then
        acc ++ [(env_file, "python", (split_dependency s).2)]
      else acc
    | _ => acc) []
  deps.foldl (fun acc dep =>
    match dep with
    | .str s =>
      acc ++ [(env_file, (split_dependency s).1, (split_dependency s).2)]
    | .pip ps =>
      acc ++ ps.map (fun p =>
        (env_file, (split_dependency p).1, (split_dependency p).2))
    | .other => acc) firstPass

example :
    get_conda_dependencies "environment.yml"
      [.str "python=3.9", .str "numpy>=1.21", .pip ["requests==2.28"], .other] =
    [("environment.yml", "python", "latest"),
     ("environment.yml", "python", "latest"),
     ("environment.yml", "numpy", ">=1.21"),
     ("environment.yml", "requests", "==2.28")] := by decide

/-- The per-manifest-file loop of `extract_project_dependencies`: each
discovered manifest file's extractor either returned a list of records or
raised (the exception is caught, logged, and the file skipped).  Walking
and parsing are modelled by taking each file's outcome as input. -/
def collectManifestDeps :
    List (String × Except String (List DepRecord)) → List DepRecord
  | [] => []
  | r :: rs =>
    (match r.2 with
     | .ok ds => ds
     | .error _ => []) ++ collectManifestDeps rs

/-- `extract_project_dependencies`: concatenate the manifest results with
the source-scan results and report success.  Writing the CSV is effectful;
it is modelled by returning the rows alongside the returned message.  Note
the function has no empty-result check: it reports success whatever the
row list is. -/
def extract_project_dependencies (project_path : String)
    (manifests : List (String × Except String (List DepRecord)))
    (sourceDeps : List DepRecord) : String × List DepRecord :=
  (("Dependencies extracted and saved to " ++ project_path ++
      "/all_dependencies_with_paths.csv"),
   collectManifestDeps manifests ++ sourceDeps)

/-- `generate_ast_usage_pdf`: every raise inside the `try` is caught and
turned into the returned `"❌ Error generating PDF: ..."` string.  The
existence check on the project path and the discovered source files are
inputs; PDF rendering is effectful and modelled as succeeding. -/
def generate_ast_usage_pdf (pathExists : Bool) (files : List PyFile)
    (project_path : String) : String :=
  if !pathExists then
    "❌ Error generating PDF: Project path does not exist: " ++ project_path
  else if (analyze_repo files).isEmpty then
    "❌ Error generating PDF: No Python files or analysis results found in the project path."
  else
    "AST usage report saved to: " ++ project_path ++ "/ast_report.pdf"

/-! ## Helper lemmas: strings and the splitter -/

theorem dropWhile_eq_self_of_all {p : Char → Bool} {l : List Char}
    (h : ∀ c ∈ l, p c = false) : l.dropWhile p = l := by
  cases l with
  | nil => rfl
  | cons x xs => rw [List.dropWhile_cons, h x (by simp)]; simp

theorem stripList_eq_self {l : List Char}
    (h : ∀ c ∈ l, isPySpace c = false) : stripList l = l := by
  unfold stripList
  rw [dropWhile_eq_self_of_all h,
    dropWhile_eq_self_of_all (fun c hc => h c (List.mem_reverse.mp hc)),
    List.reverse_reverse]

theorem containsC_append_cons (l r : List Char) (c : Char) :
    containsC (l ++ c :: r) c = true := by
  simp [containsC]

theorem splitFirstL_of_not_contains {l : List Char} {c : Char}
    (h : containsC l c = false) (r : List Char) :
    splitFirstL c (l ++ c :: r) = (l, r) := by
  induction l with
  | nil => simp [splitFirstL]
  | cons x xs ih =>
    simp only [containsC, List.any_cons, Bool.or_eq_false_iff,
      decide_eq_false_iff_not] at h
    simp only [List.cons_append, splitFirstL, if_neg h.1, List.append_eq]
    rw [ih (by simp [containsC, h.2])]

/-- The set of values the operator group can take (including the empty
match). -/
def opChoices : List (List Char) :=
  [[], ['=', '='], ['>', '='], ['<', '='], ['>'], ['<'], ['~', '=']]

theorem matchOpD_fst_mem (l : List Char) : (matchOpD l).1 ∈ opChoices := by
  unfold matchOpD
  repeat' split
  all_goals simp [opChoices]

theorem op_chars_not_space :
    ∀ op ∈ opChoices, ∀ c ∈ op, isPySpace c = false := by decide

theorem not_space_of_isNumChar (c : Char) (h : isNumChar c = true) :
    isPySpace c = false := by
  by_contra hs
  rw [Bool.not_eq_false] at hs
  have h6 : c = ' ' ∨ c = '\t' ∨ c = '\n' ∨ c = '\r' ∨ c = '\x0b' ∨ c = '\x0c' := by
    simpa [isPySpace, or_assoc] using hs
  rcases h6 with h1 | h1 | h1 | h1 | h1 | h1 <;> subst h1 <;>
    exact absurd h (by decide)

theorem versionFrom_spec (op num : List Char) (hop : op ∈ opChoices)
    (hnum : ∀ c ∈ num, isNumChar c = true) :
    versionFrom op num = "latest" ∨
      (versionFrom op num ≠ "" ∧ versionFrom op num = String.mk (op ++ num)) := by
  have hall : ∀ c ∈ op ++ num, isPySpace c = false := by
    intro c hc
    rcases List.mem_append.mp hc with h | h
    · exact op_chars_not_space op hop c h
    · exact not_space_of_isNumChar c (hnum c h)
  unfold versionFrom
  rw [stripList_eq_self hall]
  cases hemp : (op ++ num).isEmpty
  · right
    refine ⟨?_, by simp [hemp]⟩
    intro h
    have hd : op ++ num = [] := congrArg String.data (by simpa [hemp] using h)
    rw [hd] at hemp
    simp at hemp
  · left; simp [hemp]

theorem regexVersion_spec (r : List Char) :
    regexVersion r = "latest" ∨
      (regexVersion r ≠ "" ∧ ∃ op num, op ∈ opChoices ∧
        (∀ c ∈ num, isNumChar c = true) ∧
        regexVersion r = String.mk (op ++ num)) := by
  unfold regexVersion
  rcases hm : matchOpD ((skipExtras r).dropWhile isPySpace) with ⟨op, r4⟩
  have hop : op ∈ opChoices := by
    have h := matchOpD_fst_mem ((skipExtras r).dropWhile isPySpace)
    rw [hm] at h; exact h
  have hnum : ∀ c ∈ (r4.dropWhile isPySpace).takeWhile isNumChar,
      isNumChar c = true := fun c hc => List.mem_takeWhile_imp hc
  rcases versionFrom_spec op ((r4.dropWhile isPySpace).takeWhile isNumChar)
      hop hnum with h | ⟨h1, h2⟩
  · exact Or.inl h
  · exact Or.inr ⟨h1, op, _, hop, hnum, h2⟩

theorem regexSplit_some_snd {l : List Char} {pv : String × String}
    (h : regexSplit l = some pv) :
    pv.2 = regexVersion (l.dropWhile isGroup1Char) := by
  unfold regexSplit at h
  by_cases hg : (l.takeWhile isGroup1Char).isEmpty = true
  · rw [if_pos hg] at h; cases h
  · rw [if_neg hg] at h
    cases h; rfl

theorem at_append_ne_empty (x : String) : ("@ " ++ x) ≠ "" := by
  intro h
  have h2 : ("@ " ++ x).data = "".data := congrArg String.data h
  rw [String.data_append] at h2
  have h3 : ('@' :: ' ' :: x.data : List Char) = [] := h2
  cases h3

/-! ## Claim C1: the dependency-spec splitter on the three spec cases, and
the first-`@` split rule -/

/-- Claim C1.  The splitter returns `("name", "==1.2.3")` on
`"name==1.2.3"`, `("name", "latest")` on `"name"` and
`("pkg", "@ git+https://x")` on `"pkg @ git+https://x"`; and whenever the
marker-stripped input contains `@`, the split happens once at the first
`@` — the part before it (stripped) is the package and the part after it
(stripped) gets the `"@ "` marker. -/
theorem split_dependency_spec_cases :
    split_dependency "name==1.2.3" = ("name", "==1.2.3") ∧
    split_dependency "name" = ("name", "latest") ∧
    split_dependency "pkg @ git+https://x" = ("pkg", "@ git+https://x") ∧
    ∀ (s : String) (lft rgt : List Char),
      (stripMarker s).data = lft ++ '@' :: rgt →
      containsC lft '@' = false →
      split_dependency s =
        (String.mk (stripList lft), "@ " ++ String.mk (stripList rgt)) := by
  refine ⟨by decide, by decide, by decide, ?_⟩
  intro s lft rgt h hn
  have hc : containsC (stripMarker s).data '@' = true := by
    rw [h]; exact containsC_append_cons lft rgt '@'
  have hsp : splitFirstL '@' (stripMarker s).data = (lft, rgt) := by
    rw [h]; exact splitFirstL_of_not_contains hn rgt
  simp only [split_dependency, hc, if_true, hsp]

/-- Witness for C1: the first-`@` rule applied at a concrete input. -/
theorem split_dependency_spec_cases_witness :
    split_dependency "pkg@https://u" = ("pkg", "@ https://u") := by
  rw [split_dependency_spec_cases.2.2.2 "pkg@https://u" ['p', 'k', 'g']
    ['h', 't', 't', 'p', 's', ':', '/', '/', 'u'] (by decide) (by decide)]
  decide

/-! ## Claim C10: the version component is never empty -/

/-- Claim C10.  For every input string the splitter's version component is
non-empty: it is the sentinel `"latest"`, a string of the form
`"@ " ++ ref`, or a (non-empty) operator/version constraint assembled from
the regex's operator and version groups. -/
theorem split_dependency_version_nonempty (s : String) :
    (split_dependency s).2 ≠ "" ∧
    ((split_dependency s).2 = "latest" ∨
     (∃ rest, (split_dependency s).2 = "@ " ++ rest) ∨
     ∃ op num, op ∈ opChoices ∧ (∀ c ∈ num, isNumChar c = true) ∧
       (split_dependency s).2 = String.mk (op ++ num)) := by
  unfold split_dependency
  by_cases hc : containsC (stripMarker s).data '@' = true
  · simp only [hc, if_true]
    exact ⟨at_append_ne_empty _, Or.inr (Or.inl ⟨_, rfl⟩)⟩
  · rw [Bool.not_eq_true] at hc
    simp only [hc, Bool.false_eq_true, if_false]
    rcases hr : regexSplit (stripMarker s).data with _ | pv
    · exact ⟨show ("latest" : String) ≠ "" by decide, Or.inl rfl⟩
    · have h2 := regexSplit_some_snd hr
      rcases regexVersion_spec ((stripMarker s).data.dropWhile isGroup1Char)
        with h | ⟨h1, op, num, hop, hnum, hv⟩
      · rw [h] at h2
        refine ⟨?_, Or.inl (show pv.2 = "latest" from h2)⟩
        show pv.2 ≠ ""
        rw [h2]; decide
      · rw [hv] at h2
        refine ⟨?_, Or.inr (Or.inr ⟨op, num, hop, hnum,
          show pv.2 = String.mk (op ++ num) from h2⟩)⟩
        show pv.2 ≠ ""
        rw [h2]
        intro hcon
        have hd : op ++ num = ([] : List Char) := congrArg String.data hcon
        rw [hv, hd] at h1
        exact h1 (by decide)

/-! ## Helper lemmas: loop shapes -/

theorem concatMapG_append (g : α → List β) (l₁ l₂ : List α) :
    concatMapG g (l₁ ++ l₂) = concatMapG g l₁ ++ concatMapG g l₂ := by
  induction l₁ with
  | nil => rfl
  | cons x xs ih => simp [concatMapG, ih]

theorem mem_concatMapG {g : α → List β} {l : List α} {b : β} :
    b ∈ concatMapG g l ↔ ∃ a ∈ l, b ∈ g a := by
  induction l with
  | nil => simp [concatMapG]
  | cons x xs ih => simp [concatMapG, ih]

theorem concatMapG_map (g : β → List γ) (f : α → β) (l : List α) :
    concatMapG g (l.map f) = concatMapG (fun x => g (f x)) l := by
  induction l with
  | nil => rfl
  | cons x xs ih => simp [concatMapG, ih]

theorem concatMapG_congr {g g' : α → List β} {l : List α}
    (h : ∀ x ∈ l, g x = g' x) : concatMapG g l = concatMapG g' l := by
  induction l with
  | nil => rfl
  | cons x xs ih =>
    simp only [concatMapG, h x (by simp)]
    rw [ih (fun x hx => h x (by simp [hx]))]

theorem concatMapG_singleton (f : α → β) (l : List α) :
    concatMapG (fun x => [f x]) l = l.map f := by
  induction l with
  | nil => rfl
  | cons x xs ih => simp [concatMapG, ih]

theorem foldl_append_concatMapG (g : α → List β) (l : List α) :
    ∀ init : List β,
      l.foldl (fun acc x => acc ++ g x) init = init ++ concatMapG g l := by
  induction l with
  | nil => simp [concatMapG]
  | cons x xs ih =>
    intro init
    simp only [List.foldl_cons, concatMapG, ih (init ++ g x), List.append_assoc]

/-! ## Claim C8: conda environment files -/

/-- The records the first loop of `get_conda_dependencies` contributes for
one entry: a synthetic `"python"` record per string entry starting with
`"python"`. -/
def condaFirstPassEntry (f : String) : CondaEntry → List DepRecord
  | .str s =>
    if startsWithPy s "python" then [(f, "python", (split_dependency s).2)]
    else []
  | _ => []

/-- The records the second loop of `get_conda_dependencies` contributes for
one entry: one split record per string entry, one per element of a `pip:`
sub-list. -/
def condaSecondPassEntry (f : String) : CondaEntry → List DepRecord
  | .str s => [(f, (split_dependency s).1, (split_dependency s).2)]
  | .pip ps =>
    ps.map (fun p => (f, (split_dependency p).1, (split_dependency p).2))
  | .other => []

/-- Claim C8 (amended).  The conda parser makes two passes over the
`dependencies` list: first all synthetic `"python"` records for
python-prefixed string entries, then one split record per string entry —
including the python-prefixed ones a second time — and one split record
per `pip:` sub-list element. -/
theorem conda_dependencies_two_pass (f : String) (entries : List CondaEntry) :
    get_conda_dependencies f entries =
      concatMapG (condaFirstPassEntry f) entries ++
        concatMapG (condaSecondPassEntry f) entries := by
  unfold get_conda_dependencies
  have h1 : (fun (acc : List DepRecord) (item : CondaEntry) =>
      match item with
      | .str s =>
        if startsWithPy s "python" then
          acc ++ [(f, "python", (split_dependency s).2)]
        else acc
      | _ => acc) =
      (fun acc x => acc ++ condaFirstPassEntry f x) := by
    funext acc item
    cases item <;> simp [condaFirstPassEntry]
    split <;> simp
  have h2 : (fun (acc : List DepRecord) (dep : CondaEntry) =>
      match dep with
      | .str s =>
        acc ++ [(f, (split_dependency s).1, (split_dependency s).2)]
      | .pip ps =>
        acc ++ ps.map (fun p =>
          (f, (split_dependency p).1, (split_dependency p).2))
      | .other => acc) =
      (fun acc x => acc ++ condaSecondPassEntry f x) := by
    funext acc dep
    cases dep <;> simp [condaSecondPassEntry]
  rw [h1, h2, foldl_append_concatMapG, foldl_append_concatMapG,
    List.nil_append]

/-- Counterexample for C8 as stated: a `dependencies` entry starting with
the python marker yields two records, not a single synthetic one — the
synthetic record from the first pass and the regular split record from the
second. -/
theorem conda_python_single_record_counterexample :
    get_conda_dependencies "environment.yml" [CondaEntry.str "python==3.9"] =
      [("environment.yml", "python", "==3.9"),
       ("environment.yml", "python", "==3.9")] ∧
    (get_conda_dependencies "environment.yml"
      [CondaEntry.str "python==3.9"]).length ≠ 1 := by
  constructor
  · decide
  · decide

/-! ## Claim C6: per-file failures never abort the run -/

/-- Claim C6.  A source file whose parse fails contributes exactly one
error record — message in the symbol field, line `-1` — and the files
before and after it are analyzed as if it were absent; a manifest file
whose extractor raises contributes nothing, and the remaining manifest
files are still processed. -/
theorem per_file_failure_isolated :
    (∀ (pre post : List PyFile) (p msg : String),
      analyze_repo (pre ++ ⟨p, ParseResult.failed msg⟩ :: post) =
        analyze_repo pre ++
          (⟨p, RKind.err, msg, "", -1, ""⟩ : Record) :: analyze_repo post) ∧
    (∀ (pre post : List (String × Except String (List DepRecord)))
       (fp msg : String),
      collectManifestDeps (pre ++ (fp, Except.error msg) :: post) =
        collectManifestDeps pre ++ collectManifestDeps post) := by
  constructor
  · intro pre post p msg
    induction pre with
    | nil => simp [analyze_repo, errorRecord]
    | cons f fs ih => simp [analyze_repo, ih]
  · intro pre post fp msg
    induction pre with
    | nil => simp [collectManifestDeps]
    | cons r rs ih => simp [collectManifestDeps, ih]

/-! ## Claim C7: behavior when there is nothing to analyze -/

/-- Counterexample for C7 as stated: with no manifest files and no source
files, `extract_project_dependencies` does not surface an error — it
returns its normal success message together with an empty row list (an
empty CSV). -/
theorem extract_empty_success_counterexample :
    extract_project_dependencies "proj" [] [] =
      ("Dependencies extracted and saved to proj/all_dependencies_with_paths.csv",
       []) := by
  decide

/-- Claim C7 (amended).  Only the scanner-side entry point surfaces the
"nothing to analyze" condition: when the analysis produces no records,
`generate_ast_usage_pdf` returns its explicit error string (distinguishable
from its success message), while `extract_project_dependencies` succeeds
with an empty CSV. -/
theorem empty_analysis_error_behavior (pp : String) (fs : List PyFile)
    (h : analyze_repo fs = []) :
    generate_ast_usage_pdf true fs pp =
      "❌ Error generating PDF: No Python files or analysis results found in the project path." ∧
    (extract_project_dependencies pp [] []).2 = [] ∧
    (extract_project_dependencies pp [] []).1 =
      "Dependencies extracted and saved to " ++ pp ++
        "/all_dependencies_with_paths.csv" := by
  refine ⟨?_, rfl, rfl⟩
  simp [generate_ast_usage_pdf, h]

/-- Witness for C7's amended claim, at the empty project. -/
theorem empty_analysis_error_behavior_witness :
    generate_ast_usage_pdf true [] "proj" =
      "❌ Error generating PDF: No Python files or analysis results found in the project path." ∧
    (extract_project_dependencies "proj" [] []).2 = [] ∧
    (extract_project_dependencies "proj" [] []).1 =
      "Dependencies extracted and saved to " ++ "proj" ++
        "/all_dependencies_with_paths.csv" :=
  empty_analysis_error_behavior "proj" [] rfl

/-! ## Helper lemmas: the import map -/

theorem upsert_keys (m : List (String × ImportInfo)) (i : ImportInfo) :
    (upsert m i).map Prod.fst =
      if m.any (fun p => p.1 == i.aliasName) then m.map Prod.fst
      else m.map Prod.fst ++ [i.aliasName] := by
  unfold upsert
  split
  · rw [List.map_map]
    refine List.map_congr_left ?_
    intro p _
    by_cases hb : (p.1 == i.aliasName) = true
    · simp only [Function.comp_apply, hb, if_true]
      exact (eq_of_beq hb).symm
    · rw [Bool.not_eq_true] at hb
      have hb' : ¬ p.1 = i.aliasName := by simpa using hb
      simp [hb']
  · simp

theorem upsert_keys_nodup {m : List (String × ImportInfo)} {i : ImportInfo}
    (h : (m.map Prod.fst).Nodup) : ((upsert m i).map Prod.fst).Nodup := by
  rw [upsert_keys]
  split
  · exact h
  · rename_i hany
    rw [List.nodup_append]
    refine ⟨h, List.nodup_singleton _, ?_⟩
    intro a ha hmem
    rcases List.mem_map.mp ha with ⟨p, hp, hpa⟩
    have ha' : a = i.aliasName := by simpa using hmem
    exact hany (List.any_eq_true.mpr ⟨p, hp, by
      rw [hpa, ha']
      exact beq_self_eq_true _⟩)

theorem foldl_upsert_keys_nodup :
    ∀ (imps : List ImportInfo) (m : List (String × ImportInfo)),
      (m.map Prod.fst).Nodup → ((imps.foldl upsert m).map Prod.fst).Nodup := by
  intro imps
  induction imps with
  | nil => intro m h; exact h
  | cons i rest ih =>
    intro m h
    exact ih (upsert m i) (upsert_keys_nodup h)

theorem buildImportMap_keys_nodup (imps : List ImportInfo) :
    ((buildImportMap imps).map Prod.fst).Nodup :=
  foldl_upsert_keys_nodup imps [] (by simp)

theorem foldl_upsert_of_nodup :
    ∀ (imps : List ImportInfo) (m : List (String × ImportInfo)),
      (m.map Prod.fst ++ imps.map ImportInfo.aliasName).Nodup →
      imps.foldl upsert m = m ++ imps.map (fun i => (i.aliasName, i)) := by
  intro imps
  induction imps with
  | nil => intro m _; simp
  | cons i rest ih =>
    intro m h
    have hnotin : i.aliasName ∉ m.map Prod.fst := by
      intro hmem
      have hd := (List.nodup_append.mp h).2.2
      exact hd hmem (by simp)
    have hany : m.any (fun p => p.1 == i.aliasName) = false := by
      rw [← Bool.not_eq_true, List.any_eq_true]
      rintro ⟨p, hp, hpb⟩
      exact hnotin (List.mem_map.mpr ⟨p, hp, eq_of_beq hpb⟩)
    have hup : upsert m i = m ++ [(i.aliasName, i)] := by
      unfold upsert
      rw [hany]
      simp
    rw [List.foldl_cons, hup, ih (m ++ [(i.aliasName, i)]) (by
      simpa [List.append_assoc] using h)]
    simp

theorem buildImportMap_of_nodup {imps : List ImportInfo}
    (h : (imps.map ImportInfo.aliasName).Nodup) :
    buildImportMap imps = imps.map (fun i => (i.aliasName, i)) := by
  unfold buildImportMap
  rw [foldl_upsert_of_nodup imps [] (by simpa using h)]
  simp

/-! ## Helper lemmas: usage linenos follow visit order -/

mutual
theorem exprUsages_lineno_sublist (lines : List String) :
    ∀ e : PyExpr,
      ((exprUsages lines e).map UsageEntry.lineno).Sublist (exprLines e)
  | .name _ _ => by simp [exprUsages, exprLines]
  | .attr v a ln => by
    have ih := exprUsages_lineno_sublist lines v
    by_cases h : isName (attrRootExpr (PyExpr.attr v a ln)) = true
    · simp only [exprUsages, exprLines, h, if_true, List.map_append,
        List.map_cons, List.map_nil, List.singleton_append]
      exact List.Sublist.cons₂ _ ih
    · simp only [exprUsages, exprLines, h, if_false, List.map_append,
        List.map_nil, List.nil_append, Bool.false_eq_true]
      exact List.Sublist.cons _ ih
  | .call f args ln => by
    have ihf := exprUsages_lineno_sublist lines f
    have iha := exprListUsages_lineno_sublist lines args
    by_cases h : (fullAttrName f).isEmpty = true
    · simp only [exprUsages, exprLines, h, if_true, List.map_append,
        List.nil_append]
      exact List.Sublist.cons _ (List.Sublist.append ihf iha)
    · simp only [exprUsages, exprLines, h, if_false, List.map_append,
        List.map_cons, List.map_nil, List.singleton_append,
        Bool.false_eq_true]
      exact List.Sublist.cons₂ _ (List.Sublist.append ihf iha)
  | .group cs ln => by
    have ih := exprListUsages_lineno_sublist lines cs
    simp only [exprUsages, exprLines]
    exact List.Sublist.cons _ ih

theorem exprListUsages_lineno_sublist (lines : List String) :
    ∀ es : List PyExpr,
      ((exprListUsages lines es).map UsageEntry.lineno).Sublist
        (exprListLines es)
  | [] => by simp [exprListUsages, exprListLines]
  | e :: es => by
    have ih1 := exprUsages_lineno_sublist lines e
    have ih2 := exprListUsages_lineno_sublist lines es
    simp only [exprListUsages, exprListLines, List.map_append]
    exact List.Sublist.append ih1 ih2
end

mutual
theorem stmtUsages_lineno_sublist (lines : List String) :
    ∀ s : PyStmt,
      ((stmtUsages lines s).map UsageEntry.lineno).Sublist (stmtLines s)
  | .imp _ _ => by simp [stmtUsages, stmtLines]
  | .impFrom _ _ _ => by simp [stmtUsages, stmtLines]
  | .exprStmt e ln => by
    have ih := exprUsages_lineno_sublist lines e
    simp only [stmtUsages, stmtLines]
    exact List.Sublist.cons _ ih
  | .block body ln => by
    have ih := stmtListUsages_lineno_sublist lines body
    simp only [stmtUsages, stmtLines]
    exact List.Sublist.cons _ ih

theorem stmtListUsages_lineno_sublist (lines : List String) :
    ∀ ss : List PyStmt,
      ((stmtListUsages lines ss).map UsageEntry.lineno).Sublist
        (stmtListLines ss)
  | [] => by simp [stmtListUsages, stmtListLines]
  | s :: ss => by
    have ih1 := stmtUsages_lineno_sublist lines s
    have ih2 := stmtListUsages_lineno_sublist lines ss
    simp only [stmtListUsages, stmtListLines, List.map_append]
    exact List.Sublist.append ih1 ih2
end

/-! ## Helper lemmas: usage records in the output stream -/

/-- Selects the usage records attributed to alias `a`. -/
def usageFilterPred (a : String) : Record → Bool :=
  fun r => decide (r.rtype = RKind.usage ∧ r.aliasName = a)

theorem append_dot_isEmpty_false (x y : String) :
    ((x ++ ".") ++ y).isEmpty = false := by
  cases hb : ((x ++ ".") ++ y).isEmpty
  · rfl
  · exfalso
    have h := (String.isEmpty_iff _).mp hb
    have h2 := congrArg String.data h
    rw [String.data_append, String.data_append] at h2
    have h0 : ("" : String).data = [] := rfl
    rw [h0] at h2
    rcases List.append_eq_nil.mp h2 with ⟨h5, -⟩
    rcases List.append_eq_nil.mp h5 with ⟨-, h7⟩
    have hdot : ("." : String).data = ['.'] := rfl
    rw [hdot] at h7
    cases h7

theorem filter_fileGroup_eq (fp : String) (us : List UsageEntry)
    (p : String × ImportInfo) :
    (fileGroup fp us p).filter (usageFilterPred p.1) =
      (us.filter (fun u => rootName u.name == p.1)).map (usageRecord fp p.1) := by
  unfold fileGroup
  have h1 : usageFilterPred p.1 (importRecord fp p.1 p.2) = false := by
    simp [usageFilterPred, importRecord]
  simp only [List.filter_cons, h1, Bool.false_eq_true, if_false]
  rw [List.filter_map]
  congr 1
  rw [List.filter_eq_self]
  intro u _
  simp [usageFilterPred, usageRecord]

theorem filter_fileGroup_ne (fp : String) (us : List UsageEntry)
    {p : String × ImportInfo} {a : String} (h : ¬p.1 = a) :
    (fileGroup fp us p).filter (usageFilterPred a) = [] := by
  rw [List.filter_eq_nil_iff]
  intro r hr
  unfold fileGroup at hr
  rcases List.mem_cons.mp hr with h1 | h1
  · subst h1; simp [usageFilterPred, importRecord]
  · rcases List.mem_map.mp h1 with ⟨u, _, hru⟩
    subst hru
    simp [usageFilterPred, usageRecord, h]

theorem filter_groups_not_mem (fp : String) (us : List UsageEntry) :
    ∀ (L : List (String × ImportInfo)) {a : String}, a ∉ L.map Prod.fst →
      (concatMapG (fileGroup fp us) L).filter (usageFilterPred a) = [] := by
  intro L
  induction L with
  | nil => intro a _; rfl
  | cons p L' ih =>
    intro a ha
    simp only [List.map_cons, List.mem_cons, not_or] at ha
    simp only [concatMapG, List.filter_append]
    rw [filter_fileGroup_ne fp us (fun hh => ha.1 hh.symm), ih ha.2]
    rfl

theorem usage_filter_by_alias (fp : String) (us : List UsageEntry) :
    ∀ (L : List (String × ImportInfo)) {a : String},
      (L.map Prod.fst).Nodup → a ∈ L.map Prod.fst →
      (concatMapG (fileGroup fp us) L).filter (usageFilterPred a) =
        (us.filter (fun u => rootName u.name == a)).map (usageRecord fp a) := by
  intro L
  induction L with
  | nil => intro a _ ha; simp at ha
  | cons p L' ih =>
    intro a hnd ha
    simp only [List.map_cons, List.nodup_cons] at hnd
    simp only [concatMapG, List.filter_append]
    by_cases hpa : p.1 = a
    · subst hpa
      rw [filter_fileGroup_eq fp us p,
        filter_groups_not_mem fp us L' hnd.1, List.append_nil]
    · rw [filter_fileGroup_ne fp us hpa]
      have ha' : a ∈ L'.map Prod.fst := by
        simp only [List.map_cons] at ha
        rcases List.mem_cons.mp ha with h1 | h1
        · exact absurd h1.symm hpa
        · exact h1
      rw [ih hnd.2 ha']
      rfl

/-! ## Claim C4: call sites on attribute chains are recorded twice -/

/-- Claim C4.  First part: visiting a call whose callee is an attribute
chain rooted at a `Name` records the site once from the call rule
(at the call node's line) and immediately again from the attribute rule
(at the attribute node's line), with the same dotted symbol.  Second part:
for every alias of the import map, the emitted usage records are exactly
the visitor's matching usage entries, kept verbatim and in order — nothing
is deduplicated on the way to the output. -/
theorem call_attr_double_record :
    (∀ (lines : List String) (v : PyExpr) (a : String) (ln : Nat)
       (args : List PyExpr) (cln : Nat),
      isName (attrRootExpr (PyExpr.attr v a ln)) = true →
      exprUsages lines (PyExpr.call (PyExpr.attr v a ln) args cln) =
        ⟨fullAttrName (PyExpr.attr v a ln), cln, codeAt lines cln⟩ ::
        ⟨fullAttrName (PyExpr.attr v a ln), ln, codeAt lines ln⟩ ::
        (exprUsages lines v ++ exprListUsages lines args)) ∧
    (∀ (fp : String) (lines : List String) (m : List PyStmt) (a : String),
      a ∈ (buildImportMap (stmtListImports lines m)).map Prod.fst →
      (analyze_file fp lines m).filter (usageFilterPred a) =
        ((stmtListUsages lines m).filter
            (fun u => rootName u.name == a)).map (usageRecord fp a)) := by
  constructor
  · intro lines v a ln args cln h
    have hne : (fullAttrName (PyExpr.attr v a ln)).isEmpty = false :=
      append_dot_isEmpty_false (fullAttrName v) a
    simp [exprUsages, hne, h]
  · intro fp lines m a ha
    exact usage_filter_by_alias fp (stmtListUsages lines m)
      (buildImportMap (stmtListImports lines m))
      (buildImportMap_keys_nodup (stmtListImports lines m)) ha

/-- Witness for C4 at concrete inputs: the call `pd.f()` contributes two
visitor entries, and in the pandas sample the output carries three usage
records for alias `pd` (the duplicated call site plus the bare attribute
access). -/
theorem call_attr_double_record_witness :
    (exprUsages [] (PyExpr.call (PyExpr.attr (PyExpr.name "pd" 1) "f" 1) [] 1)).length = 2 ∧
    ((analyze_file "sample.py" pandasLines pandasMod).filter
      (usageFilterPred "pd")).length = 3 := by
  constructor
  · rw [call_attr_double_record.1 [] (PyExpr.name "pd" 1) "f" 1 [] 1 (by decide)]
    decide
  · rw [call_attr_double_record.2 "sample.py" pandasLines pandasMod "pd" (by decide)]
    decide

/-! ## Claim C2: the output stream groups each import with its usages -/

/-- Claim C2 (amended).  Provided the file's AST visit order is
non-decreasing in line number (`stmtListLines`), the scanner's output for
the file decomposes into groups: each group is one `Import` record
immediately followed by all the `Usage` records attributed to its alias
(the groups' aliases are pairwise distinct), and inside a group the usage
records are in ascending line order. -/
theorem scanner_stream_grouped (fp : String) (lines : List String)
    (m : List PyStmt) (hs : List.Sorted (· ≤ ·) (stmtListLines m)) :
    ∃ groups : List (Record × List Record),
      analyze_file fp lines m = concatMapG (fun g => g.1 :: g.2) groups ∧
      (groups.map (fun g => g.1.aliasName)).Nodup ∧
      (∀ g ∈ groups, g.1.rtype = RKind.imp ∧
        ∀ u ∈ g.2, u.rtype = RKind.usage ∧ u.aliasName = g.1.aliasName) ∧
      (∀ g ∈ groups, List.Sorted (· ≤ ·) (g.2.map Record.lineno)) := by
  refine ⟨(buildImportMap (stmtListImports lines m)).map (fun p =>
      (importRecord fp p.1 p.2,
       ((stmtListUsages lines m).filter
           (fun u => rootName u.name == p.1)).map (usageRecord fp p.1))),
    ?_, ?_, ?_, ?_⟩
  · rw [concatMapG_map]
    rfl
  · have h : ((buildImportMap (stmtListImports lines m)).map (fun p =>
        (importRecord fp p.1 p.2,
         ((stmtListUsages lines m).filter
             (fun u => rootName u.name == p.1)).map
           (usageRecord fp p.1)))).map (fun g => g.1.aliasName) =
        (buildImportMap (stmtListImports lines m)).map Prod.fst := by
      rw [List.map_map]
      exact List.map_congr_left (fun p _ => rfl)
    rw [h]
    exact buildImportMap_keys_nodup _
  · intro g hg
    rcases List.mem_map.mp hg with ⟨p, _, hgp⟩
    subst hgp
    refine ⟨rfl, ?_⟩
    intro u hu
    rcases List.mem_map.mp hu with ⟨w, _, hwu⟩
    subst hwu
    exact ⟨rfl, rfl⟩
  · intro g hg
    rcases List.mem_map.mp hg with ⟨p, _, hgp⟩
    subst hgp
    have h1 : (((stmtListUsages lines m).filter
          (fun u => rootName u.name == p.1)).map
          (usageRecord fp p.1)).map Record.lineno =
        ((stmtListUsages lines m).filter
          (fun u => rootName u.name == p.1)).map
          (fun u => (u.lineno : Int)) := by
      rw [List.map_map]
      exact List.map_congr_left (fun u _ => rfl)
    rw [h1]
    have hsub : (((stmtListUsages lines m).filter
        (fun u => rootName u.name == p.1)).map UsageEntry.lineno).Sublist
        (stmtListLines m) :=
      List.Sublist.trans
        (List.Sublist.map UsageEntry.lineno
          (List.filter_sublist (stmtListUsages lines m)))
        (stmtListUsages_lineno_sublist lines m)
    have h2 : List.Sorted (· ≤ ·)
        (((stmtListUsages lines m).filter
          (fun u => rootName u.name == p.1)).map UsageEntry.lineno) :=
      List.Pairwise.sublist hsub hs
    have h3 := List.pairwise_map.mp h2
    have h4 : List.Pairwise (fun a b : Int => a ≤ b)
        (((stmtListUsages lines m).filter
          (fun u => rootName u.name == p.1)).map
          (fun u => (u.lineno : Int))) :=
      List.Pairwise.map (fun u => (u.lineno : Int))
        (fun u v h => by
          show (u.lineno : Int) ≤ (v.lineno : Int)
          exact_mod_cast h) h3
    exact h4

/-- Witness for C2's amended claim, at the pandas sample file (its visit
order is line-ordered). -/
theorem scanner_stream_grouped_witness :
    ∃ groups : List (Record × List Record),
      analyze_file "sample.py" pandasLines pandasMod =
        concatMapG (fun g => g.1 :: g.2) groups ∧
      (groups.map (fun g => g.1.aliasName)).Nodup ∧
      (∀ g ∈ groups, g.1.rtype = RKind.imp ∧
        ∀ u ∈ g.2, u.rtype = RKind.usage ∧ u.aliasName = g.1.aliasName) ∧
      (∀ g ∈ groups, List.Sorted (· ≤ ·) (g.2.map Record.lineno)) :=
  scanner_stream_grouped "sample.py" pandasLines pandasMod (by decide)

/-- Source lines of a decorated-function file: the decorator on line 2 is
visited after the function body (CPython field order puts `body` before
`decorator_list`). -/
def decoLines : List String :=
  ["import pandas as pd", "@pd.deco", "def g():", "    pd.use()"]

/-- Tree of the decorated-function file: the `FunctionDef` is a compound
statement whose children appear in AST field order — the body's
`pd.use()` (line 4) before the decorator expression `pd.deco` (line 2). -/
def decoMod : List PyStmt :=
  [.imp [("pandas", some "pd")] 1,
   .block
     [.exprStmt (.call (.attr (.name "pd" 4) "use" 4) [] 4) 4,
      .exprStmt (.attr (.name "pd" 2) "deco" 2) 2] 3]

/-- Counterexample for C2 as stated: for the decorated-function file the
usage records for alias `pd` come out in visit order `[4, 4, 2]`, which is
not ascending source-line order. -/
theorem scanner_usage_order_counterexample :
    ((analyze_file "deco.py" decoLines decoMod).filter
        (fun r => decide (r.rtype = RKind.usage))).map Record.lineno =
      [4, 4, 2] ∧
    ¬ List.Sorted (· ≤ ·) ([4, 4, 2] : List Int) := by
  constructor
  · decide
  · decide

/-! ## Claim C3: the pandas example file -/

/-- Claim C3 (amended).  For the pandas sample file the scanner emits the
`Import` record for `pandas as pd` immediately followed by exactly three
`Usage` records: `pd.read_csv` twice — once from the call rule at the call
node's line and once from the attribute rule — then `pd.DataFrame`, each
carrying its source line number and source text. -/
theorem pandas_sample_output :
    analyze_file "sample.py" pandasLines pandasMod =
      [⟨"sample.py", .imp, "pandas", "pd", 1, "import pandas as pd"⟩,
       ⟨"sample.py", .usage, "pd.read_csv", "pd", 2, "pd.read_csv()"⟩,
       ⟨"sample.py", .usage, "pd.read_csv", "pd", 2, "pd.read_csv()"⟩,
       ⟨"sample.py", .usage, "pd.DataFrame", "pd", 3, "pd.DataFrame"⟩] := by
  decide

/-- Counterexample for C3 as stated: the sample file yields three usage
records, not two — the call site `pd.read_csv(...)` is recorded by both
the call rule and the attribute rule. -/
theorem pandas_sample_two_usages_false :
    ((analyze_file "sample.py" pandasLines pandasMod).filter
        (fun r => decide (r.rtype = RKind.usage))).length = 3 ∧
    ¬ (((analyze_file "sample.py" pandasLines pandasMod).filter
        (fun r => decide (r.rtype = RKind.usage))).map Record.symbol =
      ["pd.read_csv", "pd.DataFrame"]) := by
  constructor
  · decide
  · decide

/-! ## Claim C5: files containing only imports -/

/-- Discriminates the two import statement kinds. -/
def isImportStmt : PyStmt → Bool
  | .imp _ _ => true
  | .impFrom _ _ _ => true
  | _ => false

theorem stmtListUsages_of_imports (lines : List String) :
    ∀ m : List PyStmt, (∀ s ∈ m, isImportStmt s = true) →
      stmtListUsages lines m = [] := by
  intro m
  induction m with
  | nil => intro _; rfl
  | cons s ss ih =>
    intro h
    have h1 : stmtUsages lines s = [] := by
      cases s with
      | imp ns ln => rfl
      | impFrom md ns ln => rfl
      | exprStmt e ln =>
        exact absurd (h (PyStmt.exprStmt e ln) (by simp))
          (by simp [isImportStmt])
      | block b ln =>
        exact absurd (h (PyStmt.block b ln) (by simp))
          (by simp [isImportStmt])
    simp [stmtListUsages, h1, ih (fun s hs => h s (by simp [hs]))]

/-- Claim C5 (amended).  For a file whose statements are all import
statements, binding aliases that are pairwise distinct, the scanner emits
exactly one `Import` record per binding, in declaration order, and no
`Usage` records. -/
theorem imports_only_scan_output (fp : String) (lines : List String)
    (m : List PyStmt) (h1 : ∀ s ∈ m, isImportStmt s = true)
    (h2 : ((stmtListImports lines m).map ImportInfo.aliasName).Nodup) :
    analyze_file fp lines m =
      (stmtListImports lines m).map
        (fun i => importRecord fp i.aliasName i) := by
  unfold analyze_file
  rw [stmtListUsages_of_imports lines m h1, buildImportMap_of_nodup h2,
    concatMapG_map]
  have hcongr : concatMapG (fun i => fileGroup fp [] (i.aliasName, i))
      (stmtListImports lines m) =
      concatMapG (fun i => [importRecord fp i.aliasName i])
        (stmtListImports lines m) :=
    concatMapG_congr (fun i _ => rfl)
  rw [hcongr, concatMapG_singleton]

/-- Source line of a single import statement binding two names. -/
def twoNameLines : List String := ["import os, sys"]

/-- Tree of the file `import os, sys`: one `Import` statement, two
bindings. -/
def twoNameMod : List PyStmt := [.imp [("os", none), ("sys", none)] 1]

/-- Counterexample for C5 as stated: a file with one top-level import
statement (`import os, sys`) and no usages produces two `Import` records,
not one record per import statement. -/
theorem import_statement_count_counterexample :
    twoNameMod.length = 1 ∧
    ((analyze_file "f.py" twoNameLines twoNameMod).filter
        (fun r => decide (r.rtype = RKind.imp))).length = 2 := by
  constructor
  · decide
  · decide

/-- Witness for C5's amended claim at the `import os, sys` file. -/
theorem imports_only_scan_output_witness :
    analyze_file "f.py" twoNameLines twoNameMod =
      (stmtListImports twoNameLines twoNameMod).map
        (fun i => importRecord "f.py" i.aliasName i) :=
  imports_only_scan_output "f.py" twoNameLines twoNameMod (by decide)
    (by decide)

/-! ## Claim C9: usage records are well-formed -/

/-- Claim C9.  Every usage record the scanner emits for a file is
attributed to an alias for which the same file's output also contains an
`Import` record, and the first dotted component of its symbol is exactly
that alias; expressions whose root identifier is not a known alias are
filtered out and never reach the output. -/
theorem usage_records_wellformed (fp : String) (lines : List String)
    (m : List PyStmt) (r : Record) (hr : r ∈ analyze_file fp lines m)
    (ht : r.rtype = RKind.usage) :
    rootName r.symbol = r.aliasName ∧
    ∃ ri, ri ∈ analyze_file fp lines m ∧ ri.rtype = RKind.imp ∧
      ri.aliasName = r.aliasName := by
  unfold analyze_file at hr ⊢
  rcases mem_concatMapG.mp hr with ⟨p, hp, hrp⟩
  unfold fileGroup at hrp
  rcases List.mem_cons.mp hrp with h1 | h1
  · subst h1
    exact absurd ht (by simp [importRecord])
  · rcases List.mem_map.mp h1 with ⟨u, hu, hru⟩
    subst hru
    have hq : rootName u.name = p.1 := eq_of_beq (List.mem_filter.mp hu).2
    refine ⟨hq, importRecord fp p.1 p.2, ?_, rfl, rfl⟩
    exact mem_concatMapG.mpr ⟨p, hp, by unfold fileGroup; simp⟩

/-- Witness for C9 at the pandas sample's first usage record. -/
theorem usage_records_wellformed_witness :
    rootName "pd.read_csv" = "pd" ∧
    ∃ ri, ri ∈ analyze_file "sample.py" pandasLines pandasMod ∧
      ri.rtype = RKind.imp ∧ ri.aliasName = "pd" :=
  usage_records_wellformed "sample.py" pandasLines pandasMod
    ⟨"sample.py", RKind.usage, "pd.read_csv", "pd", 2, "pd.read_csv()"⟩
    (by decide) rfl
